import Mathlib

/-
Verification of the half-edge mesh core of the aec-geometry-lab repository.

The embedding models the two core modules:
  * the connectivity builder and traversal queries (buildHalfEdge,
    computeValences, buildWireframeIndices) from src/halfedge.ts, and
  * the edge operators (edgeFlip, edgeSplit, recomputeNormals) from
    src/geom/ops.ts.

Modelling conventions:
  * JavaScript arrays become Lean lists; element reads a[i] become
    List.getD with the value that the surrounding code would observe.
  * Integer indices are Nat; sentinel fields that the source keeps as -1
    (twin, vertex representative) are Int so that -1 is representable.
  * A thrown JavaScript exception (TypeError) is modelled as Except.error;
    normal returns are Except.ok.  The source never catches exceptions in
    this core, so an error value means the call crashes.
  * Vertex positions are rationals.  Per-vertex normals are produced by a
    floating-point pipeline (cross products, Math.hypot normalisation)
    whose exact values are not representable in an exact embedding; the
    normals array is therefore tracked symbolically by the NormalsVal
    type, which records exactly which arrays the float computation reads.
    No claim depends on the numeric content of normals.
-/

namespace AecLab

/-- Vertex record of the half-edge structure: one outgoing half-edge index,
or -1 when the vertex is referenced by no triangle. -/
structure HEVertex where
  halfedge : Int
  deriving Repr, DecidableEq

/-- Half-edge record: head vertex, owning face, next half-edge in the face
3-cycle, and the opposite half-edge (-1 on a boundary). -/
structure HEHalfEdge where
  vert : Nat
  face : Nat
  next : Nat
  twin : Int
  deriving Repr, DecidableEq

/-- Face record: one representative half-edge of the face. -/
structure HEFace where
  halfedge : Nat
  deriving Repr, DecidableEq

/-- The half-edge graph returned by the connectivity builder. -/
structure HalfEdgeMesh where
  vertices : List HEVertex
  halfedges : List HEHalfEdge
  faces : List HEFace
  deriving Repr, DecidableEq

/-- Default half-edge record used as the List.getD fallback; all in-range
reads in the source hit initialised records. -/
def dHE : HEHalfEdge := ⟨0, 0, 0, -1⟩

/-- In-block predecessor of half-edge h, as computed by the builder helper
prev: the face is h / 3, the block base is f * 3, and the predecessor is
base + 2 for the base element and h - 1 otherwise. -/
def hePrev (h : Nat) : Nat :=
  let f := h / 3
  let base := f * 3
  if h = base then base + 2 else h - 1

/-- In-block successor of half-edge h.  The builder stores next explicitly
(h0 to h1 to h2 to h0 inside each block); as a function of the index this
is base + (h - base + 1) % 3. -/
def heNextIdx (h : Nat) : Nat :=
  let base := (h / 3) * 3
  base + (h - base + 1) % 3

/-- Head vertex of half-edge h.  The builder assigns h0.vert = i1,
h1.vert = i2, h2.vert = i0, i.e. the index-list entry at the in-block
successor position. -/
def headV (indices : List Nat) (h : Nat) : Nat :=
  indices.getD (heNextIdx h) 0

/-- Tail vertex of half-edge h, obtained in the source as the head of the
in-block predecessor (from = halfedges[prev(h)].vert). -/
def tailV (indices : List Nat) (h : Nat) : Nat :=
  headV indices (hePrev h)

/-- Directed edge key of half-edge h, modelling the string key from_to of
the edge map of the builder.  String keys of distinct Nat pairs are distinct, so
the pair itself is a faithful model of the key. -/
def edgeKey (indices : List Nat) (h : Nat) : Nat × Nat :=
  (tailV indices h, headV indices h)

/-- Lookup in the directed-edge hash map of the builder.  The source inserts
every half-edge in ascending order with Map.set, so the entry retained for
a key is the most recently inserted half-edge with that key: the last
element of the ascending index range whose key matches. -/
def edgeMapFind (indices : List Nat) (key : Nat × Nat) : Option Nat :=
  ((List.range (3 * (indices.length / 3))).filter
    (fun h => edgeKey indices h == key)).getLast?

/-- Twin pointer computed by the builder second pass: look up the reversed
directed pair; -1 when absent (boundary). -/
def twinOf (indices : List Nat) (h : Nat) : Int :=
  match edgeMapFind indices (headV indices h, tailV indices h) with
  | some t => (t : Int)
  | none => -1

/-- Representative outgoing half-edge of vertex v.  The face loop writes
vertices[i_k].halfedge = h_k for every face in ascending order, and the
tail of h_k is exactly indices[h_k], so the surviving (last) write is the
largest half-edge position whose index-list entry is v; -1 when v never
occurs. -/
def repOf (indices : List Nat) (v : Nat) : Int :=
  match ((List.range (3 * (indices.length / 3))).filter
      (fun p => indices.getD p 0 == v)).getLast? with
  | some p => (p : Int)
  | none => -1

/-- The graph assembled by buildHalfEdge when no exception is thrown:
a functional description of the arrays after both passes of the builder. -/
def heOf (indices : List Nat) (vertexCount : Nat) : HalfEdgeMesh where
  vertices := (List.range vertexCount).map (fun v => ⟨repOf indices v⟩)
  halfedges := (List.range (3 * (indices.length / 3))).map
    (fun h => ⟨headV indices h, h / 3, heNextIdx h, twinOf indices h⟩)
  faces := (List.range (indices.length / 3)).map (fun f => ⟨f * 3⟩)

/-- buildHalfEdge from src/halfedge.ts.  The two error branches model the
TypeErrors the JavaScript code throws on invalid input, traced as follows.
If the index count is not a multiple of 3, F = indices.length / 3 is
fractional, the face loop still runs for the final partial face (f < F),
and the assignment halfedges[h].vert for the half-edge slots past the
allocated array hits undefined, so the assignment throws.  If some vertex
index i is out of range (at least vertexCount), the face loop assignment
vertices[i].halfedge = h dereferences undefined and throws.  In both cases
the call crashes with a TypeError rather than validating its input or
returning a (corrupted) graph. -/
def buildHalfEdge (indices : List Nat) (vertexCount : Nat) :
    Except String HalfEdgeMesh :=
  if indices.length % 3 = 0 then
    if ∀ i ∈ indices, i < vertexCount then
      .ok (heOf indices vertexCount)
    else
      .error "TypeError: cannot set halfedge of undefined (vertex index out of range)"
  else
    .error "TypeError: write to an undefined half-edge slot (length not a multiple of 3)"

/-- Extract the graph from a successful build; the fallback is never
relevant where this helper is used on concrete successful builds. -/
def okD (e : Except String HalfEdgeMesh) : HalfEdgeMesh :=
  match e with
  | .ok g => g
  | .error _ => ⟨[], [], []⟩

/-- The prevOf helper of computeValences: in-block predecessor computed
from the stored face field of h. -/
def prevOf (he : HalfEdgeMesh) (h : Nat) : Nat :=
  let f := (he.halfedges.getD h dHE).face
  let base := f * 3
  if h = base then base + 2 else h - 1

/-- Stored twin pointer of half-edge h in the graph. -/
def twinAt (he : HalfEdgeMesh) (h : Nat) : Int :=
  (he.halfedges.getD h dHE).twin

/-- Stored next pointer of half-edge h in the graph. -/
def nextAt (he : HalfEdgeMesh) (h : Nat) : Nat :=
  (he.halfedges.getD h dHE).next

/-- One directional loop of countBoundary.  The source contains this loop
body twice, verbatim, once per direction: compute the in-block predecessor
of h, read its twin, stop at a boundary (-1), otherwise move to the next
of the twin, stop when back at start, else count the step.  The iteration
cap of 10000 is the fuel argument. -/
def cbLoop (he : HalfEdgeMesh) (start : Nat) (fuel : Nat) (h : Nat)
    (total : Nat) : Nat :=
  match fuel with
  | 0 => total
  | fuel2 + 1 =>
    let p := prevOf he h
    let t := twinAt he p
    if t < 0 then total
    else
      let h2 := nextAt he t.toNat
      if h2 = start then total
      else cbLoop he start fuel2 h2 (total + 1)

/-- countBoundary from computeValences: start the total at 1 (the start
half-edge), walk one way from start, then, when the in-block predecessor
of start has a twin, walk again from the next of that twin.  The v
parameter of the source function is unused by its body and is dropped
here. -/
def countBoundary (he : HalfEdgeMesh) (start : Nat) : Nat :=
  let total1 := cbLoop he start 10000 start 1
  let p := prevOf he start
  let tw := twinAt he p
  if tw < 0 then total1
  else cbLoop he start 10000 (nextAt he tw.toNat) total1

/-- Main one-ring walk of computeValences for one vertex: count the
iteration, read the twin of the in-block predecessor of h; on a boundary
replace the count by countBoundary and stop; otherwise move to the next of
the twin and stop when back at start.  When the 10000-iteration guard
(the fuel) is exhausted the accumulated count is returned as is. -/
def valWalk (he : HalfEdgeMesh) (start : Nat) (fuel : Nat) (h : Nat)
    (count : Nat) : Nat :=
  match fuel with
  | 0 => count
  | fuel2 + 1 =>
    let count2 := count + 1
    let p := prevOf he h
    let across := twinAt he p
    if across < 0 then countBoundary he start
    else
      let h2 := nextAt he across.toNat
      if h2 = start then count2
      else valWalk he start fuel2 h2 count2

/-- computeValences from src/halfedge.ts: one entry per vertex; isolated
vertices (representative -1) are skipped and keep the zero the output
array was initialised with.  The output is a Uint16Array in the source;
every count the walk can produce is bounded by 1 + 2 * 10000 (one
increment per loop iteration), well under 2 to the 16, so no wraparound
occurs and Nat entries are faithful. -/
def computeValences (he : HalfEdgeMesh) : List Nat :=
  (List.range he.vertices.length).map (fun v =>
    let start := (he.vertices.getD v ⟨-1⟩).halfedge
    if start < 0 then 0
    else valWalk he start.toNat 10000 start.toNat 0)

/-- Valences of the graph built from an index list, or the build error. -/
def valencesOf (indices : List Nat) (vertexCount : Nat) :
    Except String (List Nat) :=
  (buildHalfEdge indices vertexCount).map computeValences

/-- The key helper of buildWireframeIndices: canonicalise an undirected
edge with the smaller vertex index first. -/
def canonKey (a b : Nat) : Nat × Nat :=
  if a < b then (a, b) else (b, a)

/-- The sequence of canonical edge keys produced by the triangle loop of
buildWireframeIndices, three per triangle in source order.  The source
iterates the flat list in steps of 3; a trailing fragment shorter than a
triangle is outside the modelled domain (the JavaScript code would read
undefined entries there) and is ignored. -/
def triEdgeKeys : List Nat → List (Nat × Nat)
  | a :: b :: c :: rest =>
    canonKey a b :: canonKey b c :: canonKey c a :: triEdgeKeys rest
  | _ => []

/-- Insertion into the JavaScript Set keyed on canonical pairs: adding an
element already present leaves the set unchanged, otherwise it is appended
(Set iteration order is insertion order). -/
def insertKey (seen : List (Nat × Nat)) (k : Nat × Nat) : List (Nat × Nat) :=
  if k ∈ seen then seen else seen ++ [k]

/-- buildWireframeIndices from src/halfedge.ts: fold the per-triangle edge
keys through the deduplicating set and flatten in iteration (= insertion)
order.  The source flattens each pair into two consecutive Uint32Array
entries; the pair list carries the same information. -/
def buildWireframeIndices (tri : List Nat) : List (Nat × Nat) :=
  (triEdgeKeys tri).foldl insertKey []

/-- Modelled from the spec: output order is insertion order of first
occurrence.  This definition follows the words of the specification (keep
the first occurrence of each canonical pair, in order) and is compared
against buildWireframeIndices, which is translated from the source. -/
def dedupFirst : List (Nat × Nat) → List (Nat × Nat)
  | [] => []
  | k :: rest => k :: dedupFirst (rest.filter (fun x => x ≠ k))
termination_by l => l.length
decreasing_by
  simp only [List.length_cons]
  exact Nat.lt_succ_of_le (List.length_filter_le _ _)

/-- Symbolic value of the normals array.  The numeric content of normals
is produced by floating-point accumulation of cross products followed by
Math.hypot normalisation (recomputeNormals in src/geom/ops.ts) and has no
exact rational counterpart; the embedding records instead which arrays
the computation reads.  raw is an explicit caller-supplied array,
appendedZeros models the temporary normals.push(0, 0, 0) of edgeSplit,
and recomputed p i is the array recomputeNormals derives from positions p
and indices i. -/
inductive NormalsVal where
  | raw (values : List ℚ)
  | appendedZeros (base : NormalsVal)
  | recomputed (positions : List ℚ) (indices : List Nat)
  deriving Repr, DecidableEq

/-- The mutable mesh state of src/geom/ops.ts: flat positions (3 per
vertex), normals, flat triangle indices. -/
structure MutableMesh where
  positions : List ℚ
  normals : NormalsVal
  indices : List Nat
  deriving Repr, DecidableEq

/-- recomputeNormals: overwrites the normals array with the value derived
from the current positions and indices (see NormalsVal). -/
def recomputeNormals (mm : MutableMesh) : MutableMesh :=
  { mm with normals := NormalsVal.recomputed mm.positions mm.indices }

/-- vertexCount helper of ops.ts: positions.length / 3. -/
def vertexCount (mm : MutableMesh) : Nat :=
  mm.positions.length / 3

/-- edgeFlip from src/geom/ops.ts.  The half-edge graph is rebuilt from the
current index list; an out-of-range half-edge id or a boundary edge
(twin -1) returns false without touching the mesh.  Past those guards the
source computes hPrev = prev(h, he) where the local prev function returns
a half-edge OBJECT, and then evaluates H[hPrev].vert: indexing the array
with an object yields undefined, and reading .vert of undefined throws a
TypeError.  Every interior flip therefore crashes before modifying
anything; the rewrite described by the comments of the function is
unreachable. -/
def edgeFlip (mm : MutableMesh) (halfedgeIndex : Int) :
    Except String (MutableMesh × Bool) :=
  match buildHalfEdge mm.indices (vertexCount mm) with
  | .error e => .error e
  | .ok he =>
    if halfedgeIndex < 0 ∨ (he.halfedges.length : Int) ≤ halfedgeIndex then
      .ok (mm, false)
    else
      let h := he.halfedges.getD halfedgeIndex.toNat dHE
      if h.twin = -1 then .ok (mm, false)
      else .error "TypeError: cannot read vert of undefined (half-edge array indexed with an object)"

/-- The prevIndex helper of edgeSplit: base + ((h - base + 2) % 3). -/
def splitPrevIndex (hIndex : Nat) : Nat :=
  let f := hIndex / 3
  let base := f * 3
  base + (hIndex - base + 2) % 3

/-- The splitFace helper of edgeSplit: find the third vertex c of face f
(first of i0, i1, i2 differing from both edge endpoints), overwrite the
face in place with (a, mid, c) and append the second child (mid, b, c). -/
def splitFace (indices : List Nat) (newVi f a b : Nat) : List Nat :=
  let base := f * 3
  let i0 := indices.getD base 0
  let i1 := indices.getD (base + 1) 0
  let i2 := indices.getD (base + 2) 0
  let c := if i0 ≠ a ∧ i0 ≠ b then i0
           else if i1 ≠ a ∧ i1 ≠ b then i1 else i2
  (((indices.set base a).set (base + 1) newVi).set (base + 2) c)
    ++ [newVi, b, c]

/-- edgeSplit from src/geom/ops.ts: rebuild the graph, reject an
out-of-range half-edge id with -1, read the edge endpoints a (head of the
in-block predecessor) and b (head of h), append the midpoint vertex
0.5 * (a + b) to positions and a placeholder (0,0,0) to normals, split the
face of h, split the twin face as well when the edge is interior, then
recompute normals. -/
def edgeSplit (mm : MutableMesh) (halfedgeIndex : Int) :
    Except String (MutableMesh × Int) :=
  match buildHalfEdge mm.indices (vertexCount mm) with
  | .error e => .error e
  | .ok he =>
    if halfedgeIndex < 0 ∨ (he.halfedges.length : Int) ≤ halfedgeIndex then
      .ok (mm, -1)
    else
      let hi := halfedgeIndex.toNat
      let h := he.halfedges.getD hi dHE
      let hPrev := splitPrevIndex hi
      let a := (he.halfedges.getD hPrev dHE).vert
      let b := h.vert
      let ax := mm.positions.getD (a * 3) 0
      let ay := mm.positions.getD (a * 3 + 1) 0
      let az := mm.positions.getD (a * 3 + 2) 0
      let bx := mm.positions.getD (b * 3) 0
      let by2 := mm.positions.getD (b * 3 + 1) 0
      let bz := mm.positions.getD (b * 3 + 2) 0
      let mx := (1 / 2 : ℚ) * (ax + bx)
      let my := (1 / 2 : ℚ) * (ay + by2)
      let mz := (1 / 2 : ℚ) * (az + bz)
      let newVi := mm.positions.length / 3
      let positions2 := mm.positions ++ [mx, my, mz]
      let normals2 := NormalsVal.appendedZeros mm.normals
      let indices2 := splitFace mm.indices newVi h.face a b
      let indices3 :=
        if h.twin = -1 then indices2
        else
          let opp := he.halfedges.getD h.twin.toNat dHE
          splitFace indices2 newVi opp.face b a
      .ok (recomputeNormals
            { positions := positions2, normals := normals2,
              indices := indices3 }, (newVi : Int))

/-- The quad mesh of the concrete scenarios of the spec: triangles
(0,1,2) and (0,2,3) sharing edge (0,2), with integer corner positions. -/
def quadMM : MutableMesh where
  positions := [0, 0, 0, 2, 0, 0, 2, 2, 0, 0, 2, 0]
  normals := NormalsVal.raw (List.replicate 12 0)
  indices := [0, 1, 2, 0, 2, 3]

/- ───────────────────────── helper lemmas ───────────────────────── -/

instance exceptDecEq {ε α : Type} [DecidableEq ε] [DecidableEq α] :
    DecidableEq (Except ε α) := fun x y =>
  match x, y with
  | .ok a, .ok b =>
    if h : a = b then isTrue (by rw [h])
    else isFalse (fun he => h (Except.ok.inj he))
  | .error a, .error b =>
    if h : a = b then isTrue (by rw [h])
    else isFalse (fun he => h (Except.error.inj he))
  | .ok _, .error _ => isFalse (fun he => Except.noConfusion he)
  | .error _, .ok _ => isFalse (fun he => Except.noConfusion he)

theorem getD_map_range {α : Type} (n : Nat) (f : Nat → α) (i : Nat) (d : α)
    (h : i < n) : ((List.range n).map f).getD i d = f i := by
  simp [List.getD_eq_getElem?_getD, List.getElem?_range h]

theorem getLast?_exists_of_ne_nil {α : Type} (l : List α) (h : l ≠ []) :
    ∃ a, l.getLast? = some a := by
  rcases l.eq_nil_or_concat with rfl | ⟨l2, a, rfl⟩
  · exact absurd rfl h
  · exact ⟨a, by simp⟩

theorem heNextIdx_hePrev (h : Nat) : heNextIdx (hePrev h) = h := by
  simp only [heNextIdx, hePrev]
  split <;> omega

theorem heNextIdx_splitPrevIndex (h : Nat) :
    heNextIdx (splitPrevIndex h) = h := by
  simp only [heNextIdx, splitPrevIndex]
  omega

theorem tailV_eq_getD (indices : List Nat) (h : Nat) :
    tailV indices h = indices.getD h 0 := by
  unfold tailV headV
  rw [heNextIdx_hePrev]

theorem headV_splitPrevIndex (indices : List Nat) (h : Nat) :
    headV indices (splitPrevIndex h) = indices.getD h 0 := by
  unfold headV
  rw [heNextIdx_splitPrevIndex]

theorem buildHalfEdge_ok (indices : List Nat) (N : Nat)
    (h3 : indices.length % 3 = 0) (hidx : ∀ i ∈ indices, i < N) :
    buildHalfEdge indices N = .ok (heOf indices N) := by
  unfold buildHalfEdge
  rw [if_pos h3, if_pos hidx]

theorem heOf_halfedges_length (indices : List Nat) (N : Nat) :
    (heOf indices N).halfedges.length = 3 * (indices.length / 3) := by
  unfold heOf
  simp

theorem heOf_halfedges_getD (indices : List Nat) (N h : Nat)
    (d : HEHalfEdge) (hh : h < 3 * (indices.length / 3)) :
    (heOf indices N).halfedges.getD h d =
      ⟨headV indices h, h / 3, heNextIdx h, twinOf indices h⟩ := by
  unfold heOf
  exact getD_map_range _ _ _ _ hh

theorem heOf_vertices_getD (indices : List Nat) (N v : Nat) (d : HEVertex)
    (hv : v < N) :
    (heOf indices N).vertices.getD v d = ⟨repOf indices v⟩ := by
  unfold heOf
  exact getD_map_range _ _ _ _ hv

/- ───────────────────────── claim theorems ───────────────────────── -/

/-- C8: for every well-formed triangle mesh and every half-edge index in
range whose twin is -1 (a boundary edge), edgeFlip returns false and the
mesh - positions, normals and indices - is returned exactly unchanged. -/
theorem edgeFlip_boundary_noop (mm : MutableMesh) (k : Int)
    (h3 : mm.indices.length % 3 = 0)
    (hidx : ∀ i ∈ mm.indices, i < vertexCount mm)
    (h0 : 0 ≤ k) (hk : k < (mm.indices.length : Int))
    (htw : twinOf mm.indices k.toNat = -1) :
    edgeFlip mm k = .ok (mm, false) := by
  unfold edgeFlip
  rw [buildHalfEdge_ok _ _ h3 hidx]
  dsimp only
  have hlen : ((heOf mm.indices (vertexCount mm)).halfedges.length : Int)
      = (3 * (mm.indices.length / 3) : Nat) := by
    rw [heOf_halfedges_length]
  have hkn : k.toNat < 3 * (mm.indices.length / 3) := by omega
  have hguard : ¬ (k < 0 ∨
      ((heOf mm.indices (vertexCount mm)).halfedges.length : Int) ≤ k) := by
    rw [hlen]
    omega
  rw [if_neg hguard, heOf_halfedges_getD _ _ _ _ hkn]
  simp [htw]

/-- C8 witness: flipping the boundary half-edge 0 of the quad mesh
returns false and leaves the mesh unchanged. -/
theorem edgeFlip_boundary_noop_witness :
    edgeFlip quadMM 0 = .ok (quadMM, false) :=
  edgeFlip_boundary_noop quadMM 0 (by decide)
    (by decide) (by decide) (by decide) (by decide)

/-- C1: evaluation at the failing input.  Half-edge 2 of the quad mesh is
the interior edge (2 to 0) with twin 3; the flip is supposed to rewrite
the two incident triangles, but the source indexes the half-edge array
with the half-edge object returned by its local prev helper, reads a
property of undefined, and throws a TypeError instead. -/
theorem edgeFlip_interior_crashes :
    edgeFlip quadMM 2 =
      .error "TypeError: cannot read vert of undefined (half-edge array indexed with an object)" := by
  decide

/-- C2: evaluation at the failing input.  edgeFlip on the valid interior
half-edge 3 of the quad mesh raises the modelled TypeError rather than
reporting any outcome through its boolean result. -/
theorem edgeFlip_throws_on_interior_edge :
    edgeFlip quadMM 3 =
      .error "TypeError: cannot read vert of undefined (half-edge array indexed with an object)" := by
  decide

/-- C4: evaluation at the failing inputs.  buildHalfEdge performs no
validation; an out-of-range vertex index crashes with a TypeError from a
property write on undefined (not a descriptive range error), and an index
count that is not a multiple of 3 likewise crashes in the face loop. -/
theorem buildHalfEdge_invalid_input_crashes :
    buildHalfEdge [0, 1, 5] 3 =
        .error "TypeError: cannot set halfedge of undefined (vertex index out of range)" ∧
      buildHalfEdge [0, 1, 2, 0] 4 =
        .error "TypeError: write to an undefined half-edge slot (length not a multiple of 3)" := by
  decide

/-- C5 counterexample: on the non-manifold input with triangles (0,1,2),
(0,1,3), (1,0,4) - three half-edges over the directed pairs of edge
(0,1) - the build succeeds and yields twin(0) = 6 but twin(6) = 3, so
twin symmetry fails. -/
theorem twin_symmetry_fails_nonmanifold :
    (buildHalfEdge [0, 1, 2, 0, 1, 3, 1, 0, 4] 5).map
        (fun g => ((g.halfedges.getD 0 dHE).twin,
                   (g.halfedges.getD 6 dHE).twin)) =
      Except.ok (6, 3) ∧ (3 : Int) ≠ 0 := by
  decide

theorem insertKey_mem (seen : List (Nat × Nat)) (k x : Nat × Nat) :
    x ∈ insertKey seen k ↔ x ∈ seen ∨ x = k := by
  unfold insertKey
  split
  · rename_i hk
    constructor
    · exact Or.inl
    · rintro (hx | rfl)
      · exact hx
      · exact hk
  · simp

theorem insertKey_nodup (seen : List (Nat × Nat)) (k : Nat × Nat)
    (h : seen.Nodup) : (insertKey seen k).Nodup := by
  unfold insertKey
  split
  · exact h
  · rename_i hk
    simp [List.nodup_append, h, hk]

theorem foldl_insertKey_nodup (ks : List (Nat × Nat)) :
    ∀ seen : List (Nat × Nat), seen.Nodup → (ks.foldl insertKey seen).Nodup := by
  induction ks with
  | nil => intro seen h; exact h
  | cons k rest ih =>
    intro seen h
    exact ih (insertKey seen k) (insertKey_nodup seen k h)

theorem foldl_insertKey_mem (ks : List (Nat × Nat)) :
    ∀ (seen : List (Nat × Nat)) (x : Nat × Nat),
      x ∈ ks.foldl insertKey seen ↔ x ∈ seen ∨ x ∈ ks := by
  induction ks with
  | nil => intro seen x; simp
  | cons k rest ih =>
    intro seen x
    rw [List.foldl_cons, ih (insertKey seen k) x, insertKey_mem]
    simp [or_assoc]

/-- The set-based fold is the first-occurrence deduplication of its input:
elements already seen are dropped, fresh ones are appended in order. -/
theorem foldl_insertKey_dedupFirst (ks : List (Nat × Nat)) :
    ∀ seen : List (Nat × Nat),
      ks.foldl insertKey seen =
        seen ++ dedupFirst (ks.filter (fun x => x ∉ seen)) := by
  induction ks with
  | nil => intro seen; simp [dedupFirst]
  | cons k rest ih =>
    intro seen
    rw [List.foldl_cons, ih (insertKey seen k)]
    unfold insertKey
    split
    · rename_i hk
      rw [List.filter_cons_of_neg (by simpa using hk)]
    · rename_i hk
      rw [List.filter_cons_of_pos (by simpa using hk)]
      rw [dedupFirst]
      rw [List.append_assoc]
      simp only [List.singleton_append]
      have hfeq : rest.filter (fun x => x ∉ seen ++ [k])
          = (rest.filter (fun x => x ∉ seen)).filter (fun x => x ≠ k) := by
        rw [List.filter_filter]
        apply List.filter_congr
        intro x _
        by_cases h1 : x ∈ seen <;> by_cases h2 : x = k <;>
          simp [h1, h2, List.mem_append]
      rw [hfeq]

theorem buildWireframeIndices_eq_dedupFirst (tri : List Nat) :
    buildWireframeIndices tri = dedupFirst (triEdgeKeys tri) := by
  unfold buildWireframeIndices
  rw [foldl_insertKey_dedupFirst]
  simp

/-- Every element of the triangle edge-key sequence is a canonical pair. -/
theorem mem_triEdgeKeys_canon :
    ∀ (tri : List Nat) (p : Nat × Nat), p ∈ triEdgeKeys tri →
      ∃ a b, p = canonKey a b
  | a :: b :: c :: rest, p, hp => by
    simp only [triEdgeKeys, List.mem_cons] at hp
    rcases hp with rfl | rfl | rfl | hp
    · exact ⟨a, b, rfl⟩
    · exact ⟨b, c, rfl⟩
    · exact ⟨c, a, rfl⟩
    · exact mem_triEdgeKeys_canon rest p hp
  | [], p, hp => by simp [triEdgeKeys] at hp
  | [a], p, hp => by simp [triEdgeKeys] at hp
  | [a, b], p, hp => by simp [triEdgeKeys] at hp

theorem canonKey_fst_le_snd (a b : Nat) : (canonKey a b).1 ≤ (canonKey a b).2 := by
  unfold canonKey
  split <;> simp <;> omega

/-- C9: buildWireframeIndices emits each undirected edge exactly once.
The output equals the first-occurrence deduplication of the per-triangle
canonical edge keys (insertion order, not sorted), contains no duplicate,
contains a pair exactly when it is a canonical edge of some triangle,
every output pair has its smaller vertex first, and the output length is
the number of distinct undirected edges. -/
theorem buildWireframeIndices_spec (tri : List Nat) :
    buildWireframeIndices tri = dedupFirst (triEdgeKeys tri) ∧
      (buildWireframeIndices tri).Nodup ∧
      (∀ p, p ∈ buildWireframeIndices tri ↔ p ∈ triEdgeKeys tri) ∧
      (∀ p ∈ buildWireframeIndices tri, p.1 ≤ p.2) ∧
      (buildWireframeIndices tri).length = (triEdgeKeys tri).toFinset.card := by
  have hmem : ∀ p, p ∈ buildWireframeIndices tri ↔ p ∈ triEdgeKeys tri := by
    intro p
    unfold buildWireframeIndices
    rw [foldl_insertKey_mem]
    simp
  have hnd : (buildWireframeIndices tri).Nodup :=
    foldl_insertKey_nodup _ _ List.nodup_nil
  refine ⟨buildWireframeIndices_eq_dedupFirst tri, hnd, hmem, ?_, ?_⟩
  · intro p hp
    obtain ⟨a, b, rfl⟩ := mem_triEdgeKeys_canon tri p ((hmem p).mp hp)
    exact canonKey_fst_le_snd a b
  · rw [← List.toFinset_card_of_nodup hnd]
    congr 1
    apply Finset.ext
    intro p
    simp [List.mem_toFinset, hmem p]

/-- A successful twin lookup returns an in-range half-edge carrying the
reversed directed pair. -/
theorem twinOf_eq_nat (indices : List Nat) (h t : Nat)
    (ht : twinOf indices h = (t : Int)) :
    t < 3 * (indices.length / 3) ∧
      edgeKey indices t = (headV indices h, tailV indices h) := by
  unfold twinOf at ht
  cases hf : edgeMapFind indices (headV indices h, tailV indices h) with
  | none =>
    rw [hf] at ht
    change (-1 : Int) = (t : Int) at ht
    omega
  | some u =>
    rw [hf] at ht
    change (u : Int) = (t : Int) at ht
    have hu : u = t := by omega
    subst hu
    unfold edgeMapFind at hf
    have hmem := List.mem_of_mem_getLast? hf
    have hsp := List.mem_filter.mp hmem
    refine ⟨List.mem_range.mp hsp.1, ?_⟩
    have := hsp.2
    simpa using this

theorem splitFace_length (l : List Nat) (nv f a b : Nat) :
    (splitFace l nv f a b).length = l.length + 3 := by
  simp [splitFace]

/-- Positions outside the rewritten face block are untouched by splitFace:
the three in-place writes hit the block of face f and the three appended
entries lie past the original length. -/
theorem splitFace_getD_outside (l : List Nat) (nv f a b q d : Nat)
    (hq : q < l.length) (hf : q / 3 ≠ f) :
    (splitFace l nv f a b).getD q d = l.getD q d := by
  unfold splitFace
  rw [List.getD_append _ _ _ _ (by simp; omega)]
  rw [List.getD_eq_getElem?_getD,
    List.getElem?_set_ne (by omega),
    List.getElem?_set_ne (by omega),
    List.getElem?_set_ne (by omega),
    ← List.getD_eq_getElem?_getD]

theorem splitPrevIndex_lt (k n : Nat) (hk : k < n) (h3 : n % 3 = 0) :
    splitPrevIndex k < n := by
  simp only [splitPrevIndex]
  omega

theorem twinOf_nonneg_exists (indices : List Nat) (k : Nat)
    (h : twinOf indices k ≠ -1) :
    ∃ t : Nat, twinOf indices k = (t : Int) := by
  unfold twinOf at h ⊢
  cases hf : edgeMapFind indices (headV indices k, tailV indices k) with
  | none => rw [hf] at h; exact absurd rfl h
  | some u => exact ⟨u, rfl⟩

/-- Postcondition of edgeSplit on a well-formed mesh at half-edge k with
tail a = indices[k] and head b = indices[heNextIdx k]: the call succeeds,
returns the old vertex count, appends exactly the midpoint of the
positions of a and b as the one new vertex, grows the triangle list by 2
triangles when the edge is interior (twin present) and by 1 on a boundary
edge, removes no triangle, and leaves every index-list entry outside the
one or two rewritten face blocks unchanged. -/
def EdgeSplitPost (mm : MutableMesh) (N k : Nat) : Prop :=
  match edgeSplit mm (k : Int) with
  | .ok (mm2, vi) =>
      vi = (N : Int) ∧
      mm2.positions = mm.positions ++
        [(mm.positions.getD (mm.indices.getD k 0 * 3) 0 +
            mm.positions.getD (mm.indices.getD (heNextIdx k) 0 * 3) 0) / 2,
         (mm.positions.getD (mm.indices.getD k 0 * 3 + 1) 0 +
            mm.positions.getD (mm.indices.getD (heNextIdx k) 0 * 3 + 1) 0) / 2,
         (mm.positions.getD (mm.indices.getD k 0 * 3 + 2) 0 +
            mm.positions.getD (mm.indices.getD (heNextIdx k) 0 * 3 + 2) 0) / 2] ∧
      mm2.indices.length = mm.indices.length +
        (if twinOf mm.indices k = -1 then 3 else 6) ∧
      (∀ q, q < mm.indices.length → q / 3 ≠ k / 3 →
        (∀ t : Nat, twinOf mm.indices k = (t : Int) → q / 3 ≠ t / 3) →
        mm2.indices.getD q 0 = mm.indices.getD q 0)
  | .error _ => False

/-- C3: edgeSplit satisfies its postcondition on every well-formed mesh
and every in-range half-edge index. -/
theorem edgeSplit_spec (mm : MutableMesh) (N : Nat)
    (hp : mm.positions.length = 3 * N)
    (h3 : mm.indices.length % 3 = 0)
    (hidx : ∀ i ∈ mm.indices, i < N)
    (k : Nat) (hk : k < mm.indices.length) :
    EdgeSplitPost mm N k := by
  have hvc : vertexCount mm = N := by unfold vertexCount; omega
  have hk3 : k < 3 * (mm.indices.length / 3) := by omega
  have hp3 : splitPrevIndex k < 3 * (mm.indices.length / 3) :=
    splitPrevIndex_lt k _ hk3 (by omega)
  unfold EdgeSplitPost edgeSplit
  rw [hvc, buildHalfEdge_ok _ _ h3 hidx]
  dsimp only
  rw [if_neg (by rw [heOf_halfedges_length]; omega)]
  rw [Int.toNat_ofNat]
  rw [heOf_halfedges_getD _ _ _ _ hk3, heOf_halfedges_getD _ _ _ _ hp3]
  rw [headV_splitPrevIndex]
  rw [show headV mm.indices k = mm.indices.getD (heNextIdx k) 0 from rfl]
  dsimp only [recomputeNormals]
  refine ⟨?_, ?_, ?_, ?_⟩
  · rw [show mm.positions.length / 3 = N from by omega]
  · have hhalf : ∀ x y : ℚ, (1 / 2 : ℚ) * (x + y) = (x + y) / 2 :=
      fun x y => by ring
    rw [hhalf, hhalf, hhalf]
  · by_cases htw : twinOf mm.indices k = -1
    · simp only [if_pos htw, splitFace_length]
    · simp only [if_neg htw, splitFace_length]
  · intro q hq hqk hqt
    by_cases htw : twinOf mm.indices k = -1
    · simp only [if_pos htw]
      exact splitFace_getD_outside _ _ _ _ _ _ _ hq hqk
    · simp only [if_neg htw]
      obtain ⟨t, ht⟩ := twinOf_nonneg_exists mm.indices k htw
      have htlt := (twinOf_eq_nat mm.indices k t ht).1
      rw [ht, Int.toNat_ofNat, heOf_halfedges_getD _ _ _ _ htlt]
      dsimp only
      rw [splitFace_getD_outside _ _ _ _ _ _ _
            (by rw [splitFace_length]; omega) (hqt t ht)]
      exact splitFace_getD_outside _ _ _ _ _ _ _ hq hqk

/-- C3 witness: splitting the interior half-edge 3 (edge 0 to 2) of the
quad mesh.  The postcondition instantiates, and the concrete evaluation
shows the appended vertex 4 at midpoint (1,1,0) of positions 0 and 2 and
the growth of the triangle list from 2 to 4 triangles. -/
theorem edgeSplit_spec_witness :
    quadMM.positions.length = 3 * 4 ∧ 3 < quadMM.indices.length ∧
      EdgeSplitPost quadMM 4 3 ∧
      (edgeSplit quadMM ((3 : Nat) : Int)).map
          (fun r => (r.1.indices, r.2)) =
        .ok ([2, 4, 1, 0, 4, 3, 4, 2, 3, 4, 0, 1], 4) :=
  ⟨by decide, by decide,
    edgeSplit_spec quadMM 4 (by decide) (by decide) (by decide) 3 (by decide),
    by decide⟩

/-- The graph the builder produces for the single degenerate triangle
(0,0,0): all three half-edges carry the directed pair (0,0), the edge map
retains the last of them (2), and every twin pointer is 2. -/
def heDegen : HalfEdgeMesh where
  vertices := [⟨2⟩]
  halfedges := [⟨0, 0, 1, 2⟩, ⟨0, 0, 2, 2⟩, ⟨0, 0, 0, 2⟩]
  faces := [⟨0⟩]

theorem buildHalfEdge_degen : buildHalfEdge [0, 0, 0] 1 = .ok heDegen := by
  decide

/-- On heDegen the walk body maps half-edge 0 to itself (the twin of its
in-block predecessor 2 is 2, whose next is 0) while the start is 2, so
from h = 0 the walk consumes all fuel, incrementing the count once per
iteration and never closing or hitting a boundary. -/
theorem valWalk_degen_stuck (fuel count : Nat) :
    valWalk heDegen 2 fuel 0 count = count + fuel := by
  induction fuel generalizing count with
  | zero => rfl
  | succ n ih =>
    have hstep : valWalk heDegen 2 (n + 1) 0 count =
        valWalk heDegen 2 n 0 (count + 1) := rfl
    rw [hstep, ih]
    omega

/-- The first iteration of the walk on heDegen from its start 2: the twin
of the in-block predecessor 1 is 2, the next of 2 is 0, which differs from
the start, so the walk moves to 0 with one counted step. -/
theorem valWalk_degen_first (fuel count : Nat) :
    valWalk heDegen 2 (fuel + 1) 2 count =
      valWalk heDegen 2 fuel 0 (count + 1) := rfl

/-- C7: evaluation at the failing input.  On the degenerate triangle
(0,0,0) the one-ring walk for vertex 0 never returns to its start and
never meets a boundary, so the 10000-iteration guard is exhausted and
computeValences silently stores the truncated count 10000 in its output
array; the function has no error or warning channel at all. -/
theorem valence_cap_silent_truncation :
    valencesOf [0, 0, 0] 1 = .ok [10000] := by
  have h1 : valencesOf [0, 0, 0] 1 = .ok (computeValences heDegen) := by
    unfold valencesOf
    rw [buildHalfEdge_degen]
    rfl
  have h2 : computeValences heDegen = [valWalk heDegen 2 10000 2 0] := by
    have h0 : computeValences heDegen =
        [if (2 : Int) < 0 then 0
         else valWalk heDegen (2 : Int).toNat 10000 (2 : Int).toNat 0] := rfl
    rw [h0, if_neg (by omega), show ((2 : Int).toNat) = 2 from rfl]
  have h3 : valWalk heDegen 2 10000 2 0 = valWalk heDegen 2 9999 0 1 := by
    have h4 := valWalk_degen_first 9999 0
    norm_num at h4
    exact h4
  rw [h1, h2, h3, valWalk_degen_stuck]

/-- C10: for every half-edge graph, computeValences yields exactly one
entry per vertex, and any vertex whose representative half-edge is
negative (isolated, referenced by no triangle) gets value 0: its walk is
skipped and the zero-initialised output entry survives. -/
theorem computeValences_isolated_zero (he : HalfEdgeMesh) (v : Nat)
    (hiso : (he.vertices.getD v ⟨-1⟩).halfedge < 0) :
    (computeValences he).length = he.vertices.length ∧
      (computeValences he).getD v 0 = 0 := by
  constructor
  · simp [computeValences]
  · by_cases hv : v < he.vertices.length
    · unfold computeValences
      rw [getD_map_range _ _ _ _ hv, if_pos hiso]
    · unfold computeValences
      apply List.getD_eq_default
      simpa using Nat.le_of_not_lt hv

/-- C10 witness: in the graph built from the single triangle (0,1,2) with
vertexCount 4, vertex 3 is isolated (representative -1); the output has
one entry per vertex and entry 3 is 0. -/
theorem computeValences_isolated_zero_witness :
    ((okD (buildHalfEdge [0, 1, 2] 4)).vertices.getD 3 ⟨-1⟩).halfedge < 0 ∧
      (computeValences (okD (buildHalfEdge [0, 1, 2] 4))).length =
        (okD (buildHalfEdge [0, 1, 2] 4)).vertices.length ∧
      (computeValences (okD (buildHalfEdge [0, 1, 2] 4))).getD 3 0 = 0 :=
  ⟨by decide, computeValences_isolated_zero _ 3 (by decide)⟩

/-- Uniqueness of directed edge keys: no two half-edges of the build share
a directed vertex pair.  This is the manifold-orientation condition under
which the last-write-wins edge map is lossless. -/
def UniqueKeys (indices : List Nat) : Prop :=
  (List.range (3 * (indices.length / 3))).Pairwise
    (fun g1 g2 => edgeKey indices g1 ≠ edgeKey indices g2)

instance uniqueKeysDec (indices : List Nat) : Decidable (UniqueKeys indices) :=
  inferInstanceAs (Decidable ((List.range _).Pairwise _))

theorem uniqueKeys_eq (indices : List Nat) (hu : UniqueKeys indices)
    (u v : Nat) (hun : u < 3 * (indices.length / 3))
    (hvn : v < 3 * (indices.length / 3))
    (hk : edgeKey indices u = edgeKey indices v) : u = v := by
  by_contra hne
  exact List.Pairwise.forall
    (fun x y (h : edgeKey indices x ≠ edgeKey indices y)
      (h2 : edgeKey indices y = edgeKey indices x) => h h2.symm) hu
    (List.mem_range.mpr hun) (List.mem_range.mpr hvn) hne hk

/-- When all directed keys are distinct, the edge map lookup of the key of
an in-range half-edge returns that half-edge itself. -/
theorem edgeMapFind_self (indices : List Nat) (h : Nat)
    (hh : h < 3 * (indices.length / 3)) (hu : UniqueKeys indices) :
    edgeMapFind indices (edgeKey indices h) = some h := by
  unfold edgeMapFind
  have hmem : h ∈ (List.range (3 * (indices.length / 3))).filter
      (fun g => edgeKey indices g == edgeKey indices h) := by
    refine List.mem_filter.mpr ⟨List.mem_range.mpr hh, ?_⟩
    simp
  obtain ⟨u, hlast⟩ := getLast?_exists_of_ne_nil _ (List.ne_nil_of_mem hmem)
  have humem := List.mem_filter.mp (List.mem_of_mem_getLast? hlast)
  have hueq : u = h := by
    refine uniqueKeys_eq indices hu u h (List.mem_range.mp humem.1) hh ?_
    simpa using humem.2
  rw [hlast, hueq]

/-- C5 amended: in every graph returned by buildHalfEdge from an index
list whose directed vertex pairs are pairwise distinct (so the
last-write-wins edge map loses nothing), twin symmetry holds: whenever
twin(h) is a non-negative index t, twin(t) = h.  The counterexample shows
the restriction is necessary: with repeated directed pairs the retained
hash target breaks the symmetry. -/
theorem twin_symmetric_of_unique_keys (indices : List Nat) (N : Nat)
    (g : HalfEdgeMesh) (hg : buildHalfEdge indices N = .ok g)
    (hu : UniqueKeys indices) (h t : Nat) (hh : h < g.halfedges.length)
    (htw : (g.halfedges.getD h dHE).twin = (t : Int)) :
    (g.halfedges.getD t dHE).twin = (h : Int) := by
  have hg2 : g = heOf indices N := by
    unfold buildHalfEdge at hg
    split at hg
    · split at hg
      · exact (Except.ok.inj hg).symm
      · exact absurd hg (fun he => Except.noConfusion he)
    · exact absurd hg (fun he => Except.noConfusion he)
  subst hg2
  rw [heOf_halfedges_length] at hh
  rw [heOf_halfedges_getD _ _ _ _ hh] at htw
  have htw2 : twinOf indices h = (t : Int) := htw
  obtain ⟨htlt, hkey⟩ := twinOf_eq_nat indices h t htw2
  rw [heOf_halfedges_getD _ _ _ _ htlt]
  show twinOf indices t = (h : Int)
  unfold twinOf
  have hk2 : (headV indices t, tailV indices t) = edgeKey indices h := by
    unfold edgeKey at hkey ⊢
    have h1 : tailV indices t = headV indices h := congrArg Prod.fst hkey
    have h2 : headV indices t = tailV indices h := congrArg Prod.snd hkey
    rw [h1, h2]
  rw [hk2, edgeMapFind_self indices h hh hu]

/-- C5 witness: the quad mesh has pairwise-distinct directed pairs; the
theorem applied at half-edge 2 (whose twin is 3) yields twin(3) = 2. -/
theorem twin_symmetric_of_unique_keys_witness :
    ((okD (buildHalfEdge [0, 1, 2, 0, 2, 3] 4)).halfedges.getD 3 dHE).twin =
      ((2 : Nat) : Int) :=
  twin_symmetric_of_unique_keys [0, 1, 2, 0, 2, 3] 4 _ (by decide) (by decide)
    2 3 (by decide) (by decide)

/-- C6 counterexample: on the single triangle (0,1,2) every vertex is a
boundary vertex belonging to exactly one triangle with two incident
edges, yet computeValences reports 1 for each (the directional walks stop
at the boundary immediately and only the start is counted), not the
claimed valence 2. -/
theorem boundary_valence_not_edge_count :
    valencesOf [0, 1, 2] 3 = .ok [1, 1, 1] ∧
      valencesOf [0, 1, 2] 3 ≠ .ok [2, 2, 2] := by
  decide

/-- One unfolding step of the countBoundary directional loop. -/
theorem cbLoop_succ (he : HalfEdgeMesh) (start fuel h total : Nat) :
    cbLoop he start (fuel + 1) h total =
      if twinAt he (prevOf he h) < 0 then total
      else if nextAt he (twinAt he (prevOf he h)).toNat = start then total
      else cbLoop he start fuel
        (nextAt he (twinAt he (prevOf he h)).toNat) (total + 1) := rfl

/-- One unfolding step of the main valence walk. -/
theorem valWalk_succ (he : HalfEdgeMesh) (start fuel h count : Nat) :
    valWalk he start (fuel + 1) h count =
      if twinAt he (prevOf he h) < 0 then countBoundary he start
      else if nextAt he (twinAt he (prevOf he h)).toNat = start then count + 1
      else valWalk he start fuel
        (nextAt he (twinAt he (prevOf he h)).toNat) (count + 1) := rfl

/-- When the in-block predecessor of the start has no twin, both
directional walks of countBoundary stop immediately: the first breaks on
the boundary at once and the second is skipped, so only the start is
counted. -/
theorem countBoundary_boundary_start (he : HalfEdgeMesh) (s : Nat)
    (hbd : twinAt he (prevOf he s) = -1) : countBoundary he s = 1 := by
  unfold countBoundary
  rw [show (10000 : Nat) = 9999 + 1 from rfl, cbLoop_succ, hbd]
  norm_num
  intro hc
  rw [hbd] at hc
  exact absurd hc (by omega)

/-- C6 amended: for every vertex v whose representative half-edge s has an
in-block predecessor with no twin (in particular every boundary vertex
belonging to exactly one triangle), computeValences reports 1 - only the
start is counted - and not the number of distinct incident edges.  The
second directional walk starts by crossing the same absent twin as the
first, so it never contributes. -/
theorem valence_boundary_start_one (he : HalfEdgeMesh) (v s : Nat)
    (hv : v < he.vertices.length)
    (hrep : (he.vertices.getD v ⟨-1⟩).halfedge = (s : Int))
    (hbd : twinAt he (prevOf he s) = -1) :
    (computeValences he).getD v 0 = 1 := by
  unfold computeValences
  rw [getD_map_range _ _ _ _ hv]
  dsimp only
  rw [hrep, if_neg (by omega), Int.toNat_ofNat]
  rw [show (10000 : Nat) = 9999 + 1 from rfl, valWalk_succ, hbd]
  rw [countBoundary_boundary_start he s hbd]
  norm_num

/-- C6 amended witness: in the graph of the single triangle (0,1,2),
vertex 0 has representative half-edge 0 whose in-block predecessor 2 is a
boundary half-edge, and the reported valence is 1. -/
theorem valence_boundary_start_one_witness :
    0 < (okD (buildHalfEdge [0, 1, 2] 3)).vertices.length ∧
      ((okD (buildHalfEdge [0, 1, 2] 3)).vertices.getD 0 ⟨-1⟩).halfedge =
        ((0 : Nat) : Int) ∧
      twinAt (okD (buildHalfEdge [0, 1, 2] 3))
        (prevOf (okD (buildHalfEdge [0, 1, 2] 3)) 0) = -1 ∧
      (computeValences (okD (buildHalfEdge [0, 1, 2] 3))).getD 0 0 = 1 :=
  ⟨by decide, by decide, by decide,
    valence_boundary_start_one _ 0 0 (by decide) (by decide) (by decide)⟩

end AecLab
